import Mathlib

/-! Formal model of the CSV ingestion logic of the marketplace analytics
    repository: the module-level ingestion block of src/app.py and the
    load primitive of src/data_injection.py. -/

/-- A table row, abstracted as a list of cell values. -/
abbrev Row := List String

/-- The destination store: an association list from table name to table
    contents.  Identity of a destination table is its name. -/
abbrev Store := List (String × List Row)

/-- Contents of the table named n, if it exists. -/
def getTable (st : Store) (n : String) : Option (List Row) :=
  (st.find? (fun p => p.1 == n)).map (fun p => p.2)

/-- Names of the existing tables, as returned by inspector.get_table_names(). -/
def tableNames (st : Store) : List String := st.map (fun p => p.1)

/-- Full replacement of the table named n, the semantics of
    df.to_sql(table_name, conn, if_exists="replace", index=False):
    the table is dropped if present and rewritten from the dataframe. -/
def setTable (st : Store) (n : String) (rows : List Row) : Store :=
  (n, rows) :: st.filter (fun p => p.1 != n)

/-- Drop pat as a prefix of s, if it is one. -/
def dropPrefix? : List Char → List Char → Option (List Char)
  | [], s => some s
  | _ :: _, [] => none
  | p :: ps, c :: cs => if p = c then dropPrefix? ps cs else none

/-- Python str.endswith: case-sensitive suffix test. -/
def pyEndsWith (s suffix : String) : Bool :=
  (dropPrefix? suffix.data.reverse s.data.reverse).isSome

/-- Worker for pyReplace; the fuel argument bounds the recursion depth and is
    instantiated with the length of the scanned string. -/
def replaceAllAux (pat rep : List Char) : Nat → List Char → List Char
  | _, [] => []
  | 0, s => s
  | fuel + 1, c :: cs =>
    match dropPrefix? pat (c :: cs) with
    | some rest => rep ++ replaceAllAux pat rep fuel rest
    | none => c :: replaceAllAux pat rep fuel cs

/-- Python str.replace: replaces every occurrence of pat, scanning left to
    right. -/
def pyReplace (s pat rep : String) : String :=
  ⟨replaceAllAux pat.data rep.data s.data.length s.data⟩

/-- ASCII lower-casing of one character, the fragment of Python str.lower
    relevant to the ASCII filenames involved. -/
def pyLowerChar (c : Char) : Char :=
  if 'A' ≤ c ∧ c ≤ 'Z' then Char.ofNat (c.toNat + 32) else c

/-- Python str.lower on ASCII strings. -/
def pyLower (s : String) : String := ⟨s.data.map pyLowerChar⟩

/-- Derived destination table name, app.py line 32 and data_injection.py
    line 33: filename.replace(".csv", "").lower(). -/
def tableName (filename : String) : String :=
  pyLower (pyReplace filename ".csv" "")

/-- Removal of one trailing occurrence of suffix, if present. -/
def stripSuffix (s suffix : String) : String :=
  match dropPrefix? suffix.data.reverse s.data.reverse with
  | some r => String.mk r.reverse
  | none => s

/-- Spec-worded derivation rule, used only to compare against the code's
    tableName: strip the extension from the filename, then lower-case. -/
def specTableName (filename : String) : String :=
  pyLower (stripSuffix filename ".csv")

/-- A source file together with its fault model: parse is the result of
    pd.read_csv on the file (none when the parser raises), and writeOk
    tells whether the transactional write of the parsed rows succeeds. -/
structure SourceFile where
  name : String
  parse : Option (List Row)
  writeOk : Bool
deriving DecidableEq

/-- Candidate filter, app.py line 30: filename.endswith(".csv"),
    a case-sensitive suffix test. -/
def isCandidate (f : SourceFile) : Bool := pyEndsWith f.name ".csv"

/-- Per-file load outcome, as surfaced by the status messages of the
    ingestion loop: st.success, st.info (already exists), st.error. -/
inductive Outcome where
  | loaded (rowCount : Nat)
  | skipped
  | failed
deriving DecidableEq

/-- Outcome of one candidate file, app.py lines 34-48: the membership test
    against the existing-table snapshot comes first (skip, no read); then
    pd.read_csv (a raise becomes a Failed outcome caught by the inner
    except); then the transactional write (a raise also becomes Failed). -/
def fileOutcome (ex : List String) (f : SourceFile) : Outcome :=
  if tableName f.name ∈ ex then Outcome.skipped
  else
    match f.parse with
    | none => Outcome.failed
    | some rows => if f.writeOk then Outcome.loaded rows.length else Outcome.failed

/-- Store effect of one candidate file, app.py lines 34-48: only a
    successful transactional write changes the store; a skip writes
    nothing, and a raised parse or write leaves the store unchanged
    (engine.begin rolls the transaction back in full). -/
def applyFile (ex : List String) (st : Store) (f : SourceFile) : Store :=
  if tableName f.name ∈ ex then st
  else
    match f.parse with
    | none => st
    | some rows => if f.writeOk then setTable st (tableName f.name) rows else st

/-- The ingestion loop of app.py lines 29-48: iterate the directory
    entries, filter to .csv files, and process each candidate against the
    run-start snapshot ex, accumulating the report, the store, and the
    files_loaded list (which records the derived table name on success). -/
def ingestLoop (ex : List String) (st : Store) :
    List SourceFile → List (String × Outcome) × Store × List String
  | [] => ([], st, [])
  | f :: fs =>
    if isCandidate f then
      let out := fileOutcome ex f
      let rest := ingestLoop ex (applyFile ex st f) fs
      ((f.name, out) :: rest.1, rest.2.1,
        match out with
        | Outcome.loaded _ => tableName f.name :: rest.2.2
        | _ => rest.2.2)
    else ingestLoop ex st fs

/-- Result of one ingestion run. -/
structure RunResult where
  dirMissing : Bool
  report : List (String × Outcome)
  store : Store
  filesLoaded : List String
deriving DecidableEq

/-- The ingestion block of app.py lines 25-51.  The existing-table set is
    the run-start catalog snapshot: inspector.get_table_names() is written
    inside the loop (line 34), but the SQLAlchemy Inspector caches its
    reflection queries in info_cache, so every call on the one inspector
    created at line 22 returns the catalog as of before any load of this
    run.  A missing directory reports an error and processes nothing. -/
def ingest_all (dirExists : Bool) (files : List SourceFile) (st : Store) : RunResult :=
  if dirExists then
    let r := ingestLoop (tableNames st) st files
    ⟨false, r.1, r.2.1, r.2.2⟩
  else ⟨true, [], st, []⟩

/-- The load primitive of data_injection.py lines 16-19, applied to the
    parsed rows of the file: write with if_exists="replace" and return the
    status message. -/
def load_csv_to_db (st : Store) (rows : List Row) (table_name : String) :
    Store × String :=
  (setTable st table_name rows,
    table_name ++ " loaded with " ++ toString rows.length ++ " rows.")

/-- Outcome of the setup steps of app.py lines 17-22 (st.secrets,
    create_engine, inspect): ok, an SQLAlchemyError, or another exception;
    the two error cases are caught by the outer except blocks at
    lines 53-56. -/
inductive SetupResult where
  | ok
  | sqlError
  | otherError
deriving DecidableEq

/-- Session state relevant to the run-once gate: whether the key
    "data_loaded" is present in st.session_state (it is only ever set to
    True, so presence is modelled as a Bool). -/
structure Session where
  dataLoaded : Bool
deriving DecidableEq

/-- One execution of the app.py module-level script, lines 16-56: the
    ingestion block runs only when "data_loaded" is absent from the
    session state; setup errors are caught by the outer except blocks and
    leave the session state untouched; a missing data directory reports an
    error without setting data_loaded (the assignment at line 50 lives in
    the else branch); otherwise the loop runs and data_loaded is set. -/
def script_run (setup : SetupResult) (dirExists : Bool) (files : List SourceFile)
    (sess : Session) (st : Store) : Session × Store :=
  if sess.dataLoaded then (sess, st)
  else
    match setup with
    | SetupResult.ok =>
      let r := ingest_all dirExists files st
      if r.dirMissing then (sess, st) else (⟨true⟩, r.store)
    | _ => (sess, st)

/-- The rows a file writes to the table named tn, if any: a write happens
    only when the file is not skipped, the derived name is tn, the parse
    succeeded, and the transactional write succeeds. -/
def writeOf (ex : List String) (tn : String) (f : SourceFile) : Option (List Row) :=
  if tableName f.name = tn ∧ tableName f.name ∉ ex ∧ f.writeOk = true then f.parse
  else none

/-- One step of the projection of the store fold onto a single table name. -/
def writeStep (ex : List String) (tn : String) (acc : Option (List Row))
    (f : SourceFile) : Option (List Row) :=
  match writeOf ex tn f with
  | some r => some r
  | none => acc

/-- Scanning predicate stating that no position of the string except the
    final pat-sized suffix position starts an occurrence of pat; used to
    say a filename contains ".csv" only as its trailing extension. -/
def noEarlyOccur (pat : List Char) : List Char → Bool
  | [] => true
  | c :: cs =>
    (if pat.length < (c :: cs).length then (dropPrefix? pat (c :: cs)).isNone
     else true) && noEarlyOccur pat cs

/-! Store lemmas. -/

theorem find?_filter_of_imp {α : Type} (l : List α) (q pred : α → Bool)
    (h : ∀ x, q x = true → pred x = true) :
    (l.filter pred).find? q = l.find? q := by
  rw [List.find?_filter]
  congr 1
  funext x
  cases hq : q x
  · simp
  · simp [h x hq]

theorem getTable_setTable_self (st : Store) (n : String) (r : List Row) :
    getTable (setTable st n r) n = some r := by
  simp [getTable, setTable, List.find?_cons]

theorem getTable_setTable_ne (st : Store) (n n' : String) (r : List Row)
    (h : n' ≠ n) :
    getTable (setTable st n r) n' = getTable st n' := by
  unfold getTable setTable
  have hbeq : (n == n') = false := by
    simp only [beq_eq_false_iff_ne, ne_eq]
    exact fun e => h e.symm
  rw [List.find?_cons]
  simp only [hbeq]
  rw [find?_filter_of_imp]
  intro x hx
  simp only [beq_iff_eq] at hx
  simp only [bne_iff_ne, ne_eq, hx]
  exact fun e => h (hx ▸ e)

theorem getTable_isSome_iff (st : Store) (n : String) :
    (getTable st n).isSome = true ↔ n ∈ tableNames st := by
  induction st with
  | nil => simp [getTable, tableNames]
  | cons p st ih =>
    by_cases hp : p.1 = n
    · simp [getTable, tableNames, List.find?_cons, hp]
    · have hbeq : (p.1 == n) = false := by simpa using hp
      simp only [getTable, tableNames, List.find?_cons, hbeq, List.map_cons,
        List.mem_cons]
      rw [show ((st.find? fun q => q.1 == n).map fun q => q.2).isSome =
            (getTable st n).isSome from rfl]
      rw [ih]
      constructor
      · exact fun h => Or.inr h
      · rintro (h | h)
        · exact absurd h.symm hp
        · exact h

theorem getTable_eq_none_of_not_mem (st : Store) (n : String)
    (h : n ∉ tableNames st) : getTable st n = none := by
  by_cases hs : (getTable st n).isSome = true
  · exact absurd ((getTable_isSome_iff st n).mp hs) h
  · cases hg : getTable st n with
    | none => rfl
    | some r => rw [hg] at hs; simp at hs

theorem setTable_idem (st : Store) (n : String) (r : List Row) :
    setTable (setTable st n r) n r = setTable st n r := by
  unfold setTable
  simp [List.filter_cons, List.filter_filter]

/-! Loop lemmas. -/

theorem ingestLoop_report (ex : List String) (fs : List SourceFile) : ∀ st : Store,
    (ingestLoop ex st fs).1 =
      (fs.filter isCandidate).map (fun f => (f.name, fileOutcome ex f)) := by
  induction fs with
  | nil => intro st; rfl
  | cons f fs ih =>
    intro st
    by_cases h : isCandidate f = true
    · simp [ingestLoop, h, List.filter_cons, ih]
    · simp only [Bool.not_eq_true] at h
      simp [ingestLoop, h, List.filter_cons, ih]

theorem ingestLoop_store (ex : List String) (fs : List SourceFile) : ∀ st : Store,
    (ingestLoop ex st fs).2.1 = (fs.filter isCandidate).foldl (applyFile ex) st := by
  induction fs with
  | nil => intro st; rfl
  | cons f fs ih =>
    intro st
    by_cases h : isCandidate f = true
    · simp [ingestLoop, h, List.filter_cons, ih]
    · simp only [Bool.not_eq_true] at h
      simp [ingestLoop, h, List.filter_cons, ih]

theorem getTable_applyFile (ex : List String) (tn : String) (st : Store)
    (f : SourceFile) :
    getTable (applyFile ex st f) tn = writeStep ex tn (getTable st tn) f := by
  by_cases hmem : tableName f.name ∈ ex
  · have ha : applyFile ex st f = st := by unfold applyFile; simp [hmem]
    have hwf : writeOf ex tn f = none := by unfold writeOf; simp [hmem]
    rw [ha]; unfold writeStep; rw [hwf]
  · cases hp : f.parse with
    | none =>
      have ha : applyFile ex st f = st := by unfold applyFile; simp [hmem, hp]
      have hwf : writeOf ex tn f = none := by unfold writeOf; simp [hp]
      rw [ha]; unfold writeStep; rw [hwf]
    | some rows =>
      cases hw : f.writeOk with
      | false =>
        have ha : applyFile ex st f = st := by unfold applyFile; simp [hmem, hp, hw]
        have hwf : writeOf ex tn f = none := by unfold writeOf; simp [hw]
        rw [ha]; unfold writeStep; rw [hwf]
      | true =>
        have ha : applyFile ex st f = setTable st (tableName f.name) rows := by
          unfold applyFile; simp [hmem, hp, hw]
        by_cases htn : tableName f.name = tn
        · have hwf : writeOf ex tn f = some rows := by
            unfold writeOf
            rw [if_pos ⟨htn, hmem, hw⟩, hp]
          rw [ha, htn, getTable_setTable_self]; unfold writeStep; rw [hwf]
        · have hwf : writeOf ex tn f = none := by
            unfold writeOf; simp [htn]
          rw [ha, getTable_setTable_ne st _ tn rows (fun e => htn e.symm)]
          unfold writeStep; rw [hwf]

theorem getTable_foldl (ex : List String) (tn : String) (fs : List SourceFile) :
    ∀ st : Store,
    getTable (fs.foldl (applyFile ex) st) tn =
      fs.foldl (writeStep ex tn) (getTable st tn) := by
  induction fs with
  | nil => intro st; rfl
  | cons f fs ih =>
    intro st
    simp only [List.foldl_cons]
    rw [ih, getTable_applyFile]

theorem foldl_writeStep_of_none (ex : List String) (tn : String)
    (fs : List SourceFile) (h : ∀ f ∈ fs, writeOf ex tn f = none) :
    ∀ acc : Option (List Row), fs.foldl (writeStep ex tn) acc = acc := by
  induction fs with
  | nil => intro acc; rfl
  | cons f fs ih =>
    intro acc
    have hf : writeOf ex tn f = none := h f (List.mem_cons_self f fs)
    simp only [List.foldl_cons, writeStep, hf]
    exact ih (fun g hg => h g (List.mem_cons_of_mem f hg)) acc

theorem foldl_writeStep_isSome_mono (ex : List String) (tn : String)
    (fs : List SourceFile) :
    ∀ acc : Option (List Row), acc.isSome = true →
      (fs.foldl (writeStep ex tn) acc).isSome = true := by
  induction fs with
  | nil => intro acc h; exact h
  | cons f fs ih =>
    intro acc h
    simp only [List.foldl_cons]
    apply ih
    unfold writeStep
    cases hw : writeOf ex tn f
    · exact h
    · rfl

theorem foldl_writeStep_exists_isSome (ex : List String) (tn : String)
    (fs : List SourceFile)
    (hex : ∃ f ∈ fs, (writeOf ex tn f).isSome = true) :
    ∀ acc : Option (List Row), (fs.foldl (writeStep ex tn) acc).isSome = true := by
  induction fs with
  | nil => rcases hex with ⟨f, hf, -⟩; cases hf
  | cons g fs ih =>
    intro acc
    simp only [List.foldl_cons]
    by_cases hmem : ∃ f ∈ fs, (writeOf ex tn f).isSome = true
    · exact ih hmem _
    · rcases hex with ⟨f, hf, hw⟩
      have hfg : f = g := by
        rcases List.mem_cons.mp hf with h1 | h1
        · exact h1
        · exact absurd ⟨f, h1, hw⟩ hmem
      subst hfg
      apply foldl_writeStep_isSome_mono
      unfold writeStep
      cases hww : writeOf ex tn f
      · rw [hww] at hw; simp at hw
      · rfl

theorem foldl_writeStep_const (ex : List String) (tn : String) (rows : List Row)
    (fs : List SourceFile)
    (hall : ∀ f ∈ fs, writeOf ex tn f = none ∨ writeOf ex tn f = some rows)
    (hex : ∃ f ∈ fs, writeOf ex tn f = some rows) :
    ∀ acc : Option (List Row), fs.foldl (writeStep ex tn) acc = some rows := by
  induction fs with
  | nil => rcases hex with ⟨f, hf, -⟩; cases hf
  | cons g fs ih =>
    intro acc
    simp only [List.foldl_cons]
    by_cases hmem : ∃ f ∈ fs, writeOf ex tn f = some rows
    · exact ih (fun x hx => hall x (List.mem_cons_of_mem g hx)) hmem _
    · rcases hex with ⟨f, hf, hw⟩
      have hfg : f = g := by
        rcases List.mem_cons.mp hf with h1 | h1
        · exact h1
        · exact absurd ⟨f, h1, hw⟩ hmem
      subst hfg
      have hnone : ∀ x ∈ fs, writeOf ex tn x = none := by
        intro x hx
        rcases hall x (List.mem_cons_of_mem f hx) with h1 | h1
        · exact h1
        · exact absurd ⟨x, hx, h1⟩ hmem
      simp only [writeStep, hw]
      exact foldl_writeStep_of_none ex tn fs hnone _

theorem fileOutcome_loaded_iff (ex : List String) (f : SourceFile) (n : Nat) :
    fileOutcome ex f = Outcome.loaded n ↔
      tableName f.name ∉ ex ∧ f.writeOk = true ∧
        ∃ rows, f.parse = some rows ∧ rows.length = n := by
  unfold fileOutcome
  by_cases hmem : tableName f.name ∈ ex
  · simp [hmem]
  · cases hp : f.parse with
    | none => simp [hmem]
    | some rows =>
      cases hw : f.writeOk with
      | false => simp [hmem, hw]
      | true => simp [hmem, hw]

theorem applyFile_eq_self_of_not_loaded (ex : List String) (f : SourceFile)
    (h : ∀ n, fileOutcome ex f ≠ Outcome.loaded n) :
    ∀ st : Store, applyFile ex st f = st := by
  intro st
  unfold applyFile
  by_cases hmem : tableName f.name ∈ ex
  · simp [hmem]
  · cases hp : f.parse with
    | none => simp [hmem, hp]
    | some rows =>
      cases hw : f.writeOk
      · simp [hmem, hp, hw]
      · exact absurd ((fileOutcome_loaded_iff ex f rows.length).mpr
          ⟨hmem, hw, rows, hp, rfl⟩) (h rows.length)

theorem foldl_applyFile_id (ex : List String) (fs : List SourceFile)
    (h : ∀ f ∈ fs, ∀ st : Store, applyFile ex st f = st) :
    ∀ st : Store, fs.foldl (applyFile ex) st = st := by
  induction fs with
  | nil => intro st; rfl
  | cons f fs ih =>
    intro st
    simp only [List.foldl_cons, h f (List.mem_cons_self f fs) st]
    exact ih (fun g hg => h g (List.mem_cons_of_mem f hg)) st

theorem ingest_all_report (files : List SourceFile) (st : Store) :
    (ingest_all true files st).report =
      (files.filter isCandidate).map
        (fun f => (f.name, fileOutcome (tableNames st) f)) := by
  unfold ingest_all
  simp [ingestLoop_report]

theorem ingest_all_store (files : List SourceFile) (st : Store) :
    (ingest_all true files st).store =
      (files.filter isCandidate).foldl (applyFile (tableNames st)) st := by
  unfold ingest_all
  simp [ingestLoop_store]

/-! String lemmas for the name-derivation claim. -/

theorem dropPrefix?_append (p s : List Char) : dropPrefix? p (p ++ s) = some s := by
  induction p with
  | nil => rfl
  | cons c p ih => simp [dropPrefix?, ih]

theorem replaceAllAux_strip (pat : List Char) (hp : pat ≠ []) :
    ∀ (t : List Char) (fuel : Nat), noEarlyOccur pat (t ++ pat) = true →
      (t ++ pat).length ≤ fuel → replaceAllAux pat [] fuel (t ++ pat) = t := by
  intro t
  induction t with
  | nil =>
    intro fuel hocc hfuel
    cases pat with
    | nil => exact absurd rfl hp
    | cons c ps =>
      simp only [List.nil_append] at hfuel ⊢
      cases fuel with
      | zero => simp at hfuel
      | succ k =>
        have hdp : dropPrefix? (c :: ps) (c :: ps) = some [] := by
          have h := dropPrefix?_append (c :: ps) []
          rwa [List.append_nil] at h
        simp only [replaceAllAux, hdp, List.nil_append]
  | cons c t ih =>
    intro fuel hocc hfuel
    rw [List.cons_append] at hocc hfuel ⊢
    cases fuel with
    | zero => simp at hfuel
    | succ k =>
      have hlen : pat.length < (c :: (t ++ pat)).length := by
        simp only [List.length_cons, List.length_append]
        omega
      have hocc' := hocc
      unfold noEarlyOccur at hocc'
      rw [if_pos hlen, Bool.and_eq_true] at hocc'
      have hnone : dropPrefix? pat (c :: (t ++ pat)) = none :=
        Option.isNone_iff_eq_none.mp hocc'.1
      simp only [replaceAllAux, hnone]
      have hfuel' : (t ++ pat).length ≤ k := by
        simp only [List.length_cons] at hfuel
        omega
      rw [ih k hocc'.2 hfuel']

/-! Claim theorems. -/

/-- C6: Directory-level failure is fatal and side-effect-free: when the
    source directory does not exist, ingest_all reports the missing
    directory, no file is read or loaded, no table is created or replaced
    (the store is returned untouched), and no load report is produced. -/
theorem directory_missing_fatal_and_pure (files : List SourceFile) (st : Store) :
    ingest_all false files st = ⟨true, [], st, []⟩ := rfl

/-- C10: Replace-semantics idempotence of the load primitive: for every
    store state and file contents, load_csv_to_db writes the parsed rows
    with full-replace semantics (the table ends up holding exactly the
    written rows, never an append), so loading the same contents twice
    leaves the store exactly as one load does. -/
theorem load_csv_to_db_replace_idempotent (st : Store) (rows : List Row)
    (tn : String) :
    getTable (load_csv_to_db st rows tn).1 tn = some rows ∧
      (load_csv_to_db (load_csv_to_db st rows tn).1 rows tn).1 =
        (load_csv_to_db st rows tn).1 := by
  constructor
  · exact getTable_setTable_self st tn rows
  · exact setTable_idem st tn rows

/-- C9: Run-once gate invariant: after a script run in which setup succeeds
    and the data directory exists, data_loaded is set, whatever the
    per-file outcomes were; while data_loaded is set the ingestion block is
    never executed again (session and store are returned unchanged); and
    when the directory is missing or a setup error is raised, data_loaded
    stays unset, so ingestion is re-attempted on the next rerun. -/
theorem data_loaded_gate (setup : SetupResult) (dirExists : Bool)
    (files : List SourceFile) (sess : Session) (st : Store) :
    (sess.dataLoaded = false → setup = SetupResult.ok → dirExists = true →
      (script_run setup dirExists files sess st).1.dataLoaded = true) ∧
    (sess.dataLoaded = true →
      script_run setup dirExists files sess st = (sess, st)) ∧
    (sess.dataLoaded = false → (dirExists = false ∨ setup ≠ SetupResult.ok) →
      (script_run setup dirExists files sess st).1.dataLoaded = false) := by
  refine ⟨?_, ?_, ?_⟩
  · intro h0 hs hd
    subst hs; subst hd
    simp [script_run, h0, ingest_all]
  · intro h1
    simp [script_run, h1]
  · intro h0 hor
    rcases hor with hd | hs
    · subst hd
      cases setup <;> simp [script_run, h0, ingest_all]
    · cases setup with
      | ok => exact absurd rfl hs
      | sqlError => simp [script_run, h0]
      | otherError => simp [script_run, h0]

/-- Witness for data_loaded_gate at concrete inputs: a run whose only file
    fails still sets the gate; a gated session is left untouched; a setup
    error leaves the gate unset. -/
theorem data_loaded_gate_witness :
    (script_run SetupResult.ok true [⟨"bad.csv", none, true⟩] ⟨false⟩ []).1.dataLoaded
        = true ∧
    script_run SetupResult.ok true [⟨"bad.csv", none, true⟩] ⟨true⟩ [] =
        (⟨true⟩, []) ∧
    (script_run SetupResult.sqlError true [⟨"bad.csv", none, true⟩] ⟨false⟩
        []).1.dataLoaded = false :=
  ⟨(data_loaded_gate SetupResult.ok true [⟨"bad.csv", none, true⟩] ⟨false⟩ []).1
      rfl rfl rfl,
   (data_loaded_gate SetupResult.ok true [⟨"bad.csv", none, true⟩] ⟨true⟩ []).2.1
      rfl,
   (data_loaded_gate SetupResult.sqlError true [⟨"bad.csv", none, true⟩] ⟨false⟩
      []).2.2 rfl (Or.inr (by decide))⟩

/-- C2: Skip semantics: a candidate file whose derived table name is in the
    existing-table set gets a Skipped(AlreadyExists) outcome in the report;
    the file is neither read nor written (any file with the same filename
    yields the same skip outcome and leaves any store unchanged), and the
    destination table with that name is unchanged by the whole run. -/
theorem skip_already_exists (files : List SourceFile) (st : Store)
    (f : SourceFile) (hf : f ∈ files) (hc : isCandidate f = true)
    (hex : tableName f.name ∈ tableNames st) :
    fileOutcome (tableNames st) f = Outcome.skipped ∧
    (f.name, Outcome.skipped) ∈ (ingest_all true files st).report ∧
    (∀ g : SourceFile, g.name = f.name →
      fileOutcome (tableNames st) g = Outcome.skipped ∧
        ∀ s : Store, applyFile (tableNames st) s g = s) ∧
    getTable (ingest_all true files st).store (tableName f.name) =
      getTable st (tableName f.name) := by
  have hout : fileOutcome (tableNames st) f = Outcome.skipped := by
    unfold fileOutcome
    rw [if_pos hex]
  refine ⟨hout, ?_, ?_, ?_⟩
  · rw [ingest_all_report]
    exact List.mem_map.mpr ⟨f, List.mem_filter.mpr ⟨hf, hc⟩, by rw [hout]⟩
  · intro g hg
    have hexg : tableName g.name ∈ tableNames st := by rw [hg]; exact hex
    constructor
    · unfold fileOutcome
      rw [if_pos hexg]
    · intro s
      unfold applyFile
      rw [if_pos hexg]
  · rw [ingest_all_store, getTable_foldl]
    apply foldl_writeStep_of_none
    intro g hg
    unfold writeOf
    rw [if_neg]
    rintro ⟨h1, h2, -⟩
    exact h2 (h1 ▸ hex)

/-- Witness for skip_already_exists: a store that already holds the table
    orders makes the candidate orders.csv skip, and the table keeps its
    prior contents. -/
theorem skip_already_exists_witness :
    fileOutcome (tableNames [("orders", [["old"]])])
        ⟨"orders.csv", some [["new"]], true⟩ = Outcome.skipped ∧
    ("orders.csv", Outcome.skipped) ∈
      (ingest_all true [⟨"orders.csv", some [["new"]], true⟩]
        [("orders", [["old"]])]).report ∧
    (∀ g : SourceFile, g.name = "orders.csv" →
      fileOutcome (tableNames [("orders", [["old"]])]) g = Outcome.skipped ∧
        ∀ s : Store, applyFile (tableNames [("orders", [["old"]])]) s g = s) ∧
    getTable (ingest_all true [⟨"orders.csv", some [["new"]], true⟩]
        [("orders", [["old"]])]).store
      (tableName "orders.csv") =
      getTable [("orders", [["old"]])] (tableName "orders.csv") :=
  skip_already_exists [⟨"orders.csv", some [["new"]], true⟩]
    [("orders", [["old"]])] ⟨"orders.csv", some [["new"]], true⟩
    (by decide) (by decide) (by decide)

/-- C5: Per-file failure isolation: the run produces a complete report with
    one entry per discovered candidate file, in discovery order, each
    outcome a function of that file and the run-start snapshot alone
    (so one file's failure cannot abort or alter the processing of the
    others), and a candidate whose parse or write raises is recorded as
    Failed. -/
theorem per_file_failure_isolation (files : List SourceFile) (st : Store) :
    (ingest_all true files st).report =
      (files.filter isCandidate).map
        (fun f => (f.name, fileOutcome (tableNames st) f)) ∧
    (ingest_all true files st).report.length =
      (files.filter isCandidate).length ∧
    (∀ f ∈ files, isCandidate f = true → tableName f.name ∉ tableNames st →
      f.parse = none ∨ f.writeOk = false →
        fileOutcome (tableNames st) f = Outcome.failed) := by
  refine ⟨ingest_all_report files st, ?_, ?_⟩
  · rw [ingest_all_report]
    exact List.length_map _ _
  · intro f hf hc hnot hfail
    unfold fileOutcome
    rw [if_neg hnot]
    rcases hfail with hp | hwb
    · rw [hp]
    · cases hp : f.parse with
      | none => rfl
      | some rows => simp [hwb]

/-- Witness for per_file_failure_isolation: three candidates, one
    malformed, yield exactly three report entries, the malformed one
    Failed and the other two Loaded. -/
theorem per_file_failure_isolation_witness :
    (ingest_all true
        [⟨"a.csv", some [["1"]], true⟩, ⟨"bad.csv", none, true⟩,
          ⟨"c.csv", some [["2"], ["3"]], true⟩] []).report =
      [("a.csv", Outcome.loaded 1), ("bad.csv", Outcome.failed),
        ("c.csv", Outcome.loaded 2)] ∧
    fileOutcome (tableNames ([] : Store)) ⟨"bad.csv", none, true⟩ =
      Outcome.failed := by
  constructor
  · decide
  · exact (per_file_failure_isolation
      [⟨"a.csv", some [["1"]], true⟩, ⟨"bad.csv", none, true⟩,
        ⟨"c.csv", some [["2"], ["3"]], true⟩] []).2.2
      ⟨"bad.csv", none, true⟩ (by decide) (by decide) (by decide)
      (Or.inl rfl)

/-- C4: Per-file atomicity: a candidate whose parse succeeds but whose
    transactional write raises is recorded as Failed, the rolled-back
    transaction leaves every store unchanged, and after the run the
    destination table with that name is in its pre-run state — here absent,
    since a write is only attempted when the name was not in the snapshot
    (the uniqueness hypothesis rules out another file of the run writing
    the same name). -/
theorem write_failure_atomic (files : List SourceFile) (st : Store)
    (f : SourceFile) (rows : List Row)
    (hf : f ∈ files) (hc : isCandidate f = true)
    (hnotin : tableName f.name ∉ tableNames st)
    (hp : f.parse = some rows) (hw : f.writeOk = false)
    (huniq : ∀ g ∈ files, isCandidate g = true →
      tableName g.name = tableName f.name → g = f) :
    fileOutcome (tableNames st) f = Outcome.failed ∧
    (∀ s : Store, applyFile (tableNames st) s f = s) ∧
    (f.name, Outcome.failed) ∈ (ingest_all true files st).report ∧
    getTable (ingest_all true files st).store (tableName f.name) =
      getTable st (tableName f.name) ∧
    getTable st (tableName f.name) = none := by
  have hout : fileOutcome (tableNames st) f = Outcome.failed := by
    unfold fileOutcome
    rw [if_neg hnotin, hp]
    simp [hw]
  refine ⟨hout, ?_, ?_, ?_, getTable_eq_none_of_not_mem st _ hnotin⟩
  · intro s
    unfold applyFile
    rw [if_neg hnotin, hp]
    simp [hw]
  · rw [ingest_all_report]
    exact List.mem_map.mpr ⟨f, List.mem_filter.mpr ⟨hf, hc⟩, by rw [hout]⟩
  · rw [ingest_all_store, getTable_foldl]
    apply foldl_writeStep_of_none
    intro g hg
    unfold writeOf
    rw [if_neg]
    rintro ⟨h1, -, h3⟩
    rcases List.mem_filter.mp hg with ⟨hgf, hgc⟩
    have hge := huniq g hgf hgc h1
    rw [hge, hw] at h3
    exact Bool.false_ne_true h3

/-- Witness for write_failure_atomic: one candidate whose write fails
    leaves the empty store empty and is reported Failed. -/
theorem write_failure_atomic_witness :
    fileOutcome (tableNames ([] : Store)) ⟨"orders.csv", some [["1"]], false⟩ =
      Outcome.failed ∧
    (∀ s : Store,
      applyFile (tableNames ([] : Store)) s ⟨"orders.csv", some [["1"]], false⟩
        = s) ∧
    ("orders.csv", Outcome.failed) ∈
      (ingest_all true [⟨"orders.csv", some [["1"]], false⟩] []).report ∧
    getTable (ingest_all true [⟨"orders.csv", some [["1"]], false⟩] []).store
        (tableName "orders.csv") =
      getTable [] (tableName "orders.csv") ∧
    getTable [] (tableName "orders.csv") = none :=
  write_failure_atomic [⟨"orders.csv", some [["1"]], false⟩] []
    ⟨"orders.csv", some [["1"]], false⟩ [["1"]]
    (by decide) (by decide) (by decide) rfl rfl (by decide)

/-- C8: Row-count fidelity: a candidate with parse result rows (one entry
    per data row, header excluded) that loads successfully is reported as
    Loaded with row_count the number of parsed rows, and afterwards the
    destination table holds exactly those rows (the uniqueness hypothesis
    rules out another file of the run overwriting the same name). -/
theorem row_count_fidelity (files : List SourceFile) (st : Store)
    (f : SourceFile) (rows : List Row)
    (hf : f ∈ files) (hc : isCandidate f = true)
    (hp : f.parse = some rows) (hw : f.writeOk = true)
    (hnotin : tableName f.name ∉ tableNames st)
    (huniq : ∀ g ∈ files, isCandidate g = true →
      tableName g.name = tableName f.name → g = f) :
    fileOutcome (tableNames st) f = Outcome.loaded rows.length ∧
    (f.name, Outcome.loaded rows.length) ∈ (ingest_all true files st).report ∧
    getTable (ingest_all true files st).store (tableName f.name) = some rows := by
  have hout : fileOutcome (tableNames st) f = Outcome.loaded rows.length :=
    (fileOutcome_loaded_iff _ f rows.length).mpr ⟨hnotin, hw, rows, hp, rfl⟩
  have hwf : writeOf (tableNames st) (tableName f.name) f = some rows := by
    unfold writeOf
    rw [if_pos ⟨rfl, hnotin, hw⟩, hp]
  refine ⟨hout, ?_, ?_⟩
  · rw [ingest_all_report]
    exact List.mem_map.mpr ⟨f, List.mem_filter.mpr ⟨hf, hc⟩, by rw [hout]⟩
  · rw [ingest_all_store, getTable_foldl]
    apply foldl_writeStep_const
    · intro g hg
      by_cases hcond : tableName g.name = tableName f.name ∧
          tableName g.name ∉ tableNames st ∧ g.writeOk = true
      · rcases List.mem_filter.mp hg with ⟨hgf, hgc⟩
        rw [huniq g hgf hgc hcond.1, hwf]
        exact Or.inr rfl
      · refine Or.inl ?_
        unfold writeOf
        rw [if_neg hcond]
    · exact ⟨f, List.mem_filter.mpr ⟨hf, hc⟩, hwf⟩

/-- Witness for row_count_fidelity: a two-row file loads with row_count 2
    and the table then holds those two rows. -/
theorem row_count_fidelity_witness :
    fileOutcome (tableNames ([] : Store)) ⟨"orders.csv", some [["1"], ["2"]], true⟩
        = Outcome.loaded 2 ∧
    ("orders.csv", Outcome.loaded 2) ∈
      (ingest_all true [⟨"orders.csv", some [["1"], ["2"]], true⟩] []).report ∧
    getTable (ingest_all true [⟨"orders.csv", some [["1"], ["2"]], true⟩]
        []).store (tableName "orders.csv") = some [["1"], ["2"]] :=
  row_count_fidelity [⟨"orders.csv", some [["1"], ["2"]], true⟩] []
    ⟨"orders.csv", some [["1"], ["2"]], true⟩ [["1"], ["2"]]
    (by decide) (by decide) rfl rfl (by decide) (by decide)

/-- C3: Snapshot-then-iterate: the existing-table set of a run is the
    run-start snapshot passed to every per-file decision, so two candidate
    files deriving the same table name absent from that snapshot are both
    loaded — neither is skipped — and the final contents of that table are
    those of the file processed last. -/
theorem snapshot_last_write_wins (st : Store) (pre mid post : List SourceFile)
    (f1 f2 : SourceFile) (r1 r2 : List Row)
    (hc1 : isCandidate f1 = true) (hc2 : isCandidate f2 = true)
    (hname : tableName f2.name = tableName f1.name)
    (hnotin : tableName f1.name ∉ tableNames st)
    (hp1 : f1.parse = some r1) (hw1 : f1.writeOk = true)
    (hp2 : f2.parse = some r2) (hw2 : f2.writeOk = true)
    (hpost : ∀ g ∈ post, tableName g.name ≠ tableName f1.name) :
    fileOutcome (tableNames st) f1 = Outcome.loaded r1.length ∧
    fileOutcome (tableNames st) f2 = Outcome.loaded r2.length ∧
    (f1.name, Outcome.loaded r1.length) ∈
      (ingest_all true (pre ++ f1 :: (mid ++ f2 :: post)) st).report ∧
    (f2.name, Outcome.loaded r2.length) ∈
      (ingest_all true (pre ++ f1 :: (mid ++ f2 :: post)) st).report ∧
    getTable (ingest_all true (pre ++ f1 :: (mid ++ f2 :: post)) st).store
      (tableName f1.name) = some r2 := by
  have hnotin2 : tableName f2.name ∉ tableNames st := by
    rw [hname]; exact hnotin
  have hout1 : fileOutcome (tableNames st) f1 = Outcome.loaded r1.length :=
    (fileOutcome_loaded_iff _ f1 r1.length).mpr ⟨hnotin, hw1, r1, hp1, rfl⟩
  have hout2 : fileOutcome (tableNames st) f2 = Outcome.loaded r2.length :=
    (fileOutcome_loaded_iff _ f2 r2.length).mpr ⟨hnotin2, hw2, r2, hp2, rfl⟩
  have hf1 : f1 ∈ pre ++ f1 :: (mid ++ f2 :: post) := by simp
  have hf2 : f2 ∈ pre ++ f1 :: (mid ++ f2 :: post) := by simp
  have hsplit : (pre ++ f1 :: (mid ++ f2 :: post)).filter isCandidate =
      (pre.filter isCandidate ++ f1 :: mid.filter isCandidate) ++
        f2 :: post.filter isCandidate := by
    simp [List.filter_append, List.filter_cons, hc1, hc2]
  refine ⟨hout1, hout2, ?_, ?_, ?_⟩
  · rw [ingest_all_report]
    exact List.mem_map.mpr ⟨f1, List.mem_filter.mpr ⟨hf1, hc1⟩, by rw [hout1]⟩
  · rw [ingest_all_report]
    exact List.mem_map.mpr ⟨f2, List.mem_filter.mpr ⟨hf2, hc2⟩, by rw [hout2]⟩
  · have hwf2 : writeOf (tableNames st) (tableName f1.name) f2 = some r2 := by
      unfold writeOf
      rw [if_pos ⟨hname, hnotin2, hw2⟩, hp2]
    rw [ingest_all_store, hsplit, getTable_foldl, List.foldl_append,
      List.foldl_cons]
    rw [show writeStep (tableNames st) (tableName f1.name)
        (List.foldl (writeStep (tableNames st) (tableName f1.name))
          (getTable st (tableName f1.name))
          (pre.filter isCandidate ++ f1 :: mid.filter isCandidate)) f2 =
        some r2 from by unfold writeStep; rw [hwf2]]
    apply foldl_writeStep_of_none
    intro g hg
    unfold writeOf
    rw [if_neg]
    rintro ⟨h1, -, -⟩
    exact hpost g (List.mem_of_mem_filter hg) h1

/-- Witness for snapshot_last_write_wins: Orders.csv and ORDERS.csv both
    derive the table name orders; with an empty initial store both load
    and the table ends with the rows of the second file. -/
theorem snapshot_last_write_wins_witness :
    fileOutcome (tableNames ([] : Store)) ⟨"Orders.csv", some [["1"]], true⟩ =
      Outcome.loaded 1 ∧
    fileOutcome (tableNames ([] : Store)) ⟨"ORDERS.csv", some [["2"], ["3"]], true⟩
      = Outcome.loaded 2 ∧
    ("Orders.csv", Outcome.loaded 1) ∈
      (ingest_all true ([] ++ ⟨"Orders.csv", some [["1"]], true⟩ ::
        ([] ++ ⟨"ORDERS.csv", some [["2"], ["3"]], true⟩ :: [])) []).report ∧
    ("ORDERS.csv", Outcome.loaded 2) ∈
      (ingest_all true ([] ++ ⟨"Orders.csv", some [["1"]], true⟩ ::
        ([] ++ ⟨"ORDERS.csv", some [["2"], ["3"]], true⟩ :: [])) []).report ∧
    getTable (ingest_all true ([] ++ ⟨"Orders.csv", some [["1"]], true⟩ ::
        ([] ++ ⟨"ORDERS.csv", some [["2"], ["3"]], true⟩ :: [])) []).store
      (tableName "Orders.csv") = some [["2"], ["3"]] :=
  snapshot_last_write_wins [] [] [] []
    ⟨"Orders.csv", some [["1"]], true⟩ ⟨"ORDERS.csv", some [["2"], ["3"]], true⟩
    [["1"]] [["2"], ["3"]]
    (by decide) (by decide) (by decide) (by decide) rfl rfl rfl rfl
    (by intro g hg; cases hg)

/-- C1: Idempotence of the ingestion run: starting from an empty store,
    every file reported Loaded by the first run is reported
    Skipped(AlreadyExists) at the same position of the second run's report,
    and the second run leaves the store exactly as the first run left it. -/
theorem ingest_twice_idempotent (files : List SourceFile) :
    (∀ (i n : Nat) (name : String),
      (ingest_all true files []).report[i]? = some (name, Outcome.loaded n) →
        (ingest_all true files (ingest_all true files []).store).report[i]? =
          some (name, Outcome.skipped)) ∧
    (ingest_all true files (ingest_all true files []).store).store =
      (ingest_all true files []).store := by
  set st1 := (ingest_all true files []).store with hst1def
  have hst1 : st1 = (files.filter isCandidate).foldl
      (applyFile (tableNames ([] : Store))) [] := by
    rw [hst1def, ingest_all_store]
  have hload : ∀ f ∈ files.filter isCandidate, ∀ n : Nat,
      fileOutcome (tableNames ([] : Store)) f = Outcome.loaded n →
        tableName f.name ∈ tableNames st1 := by
    intro f hf n hout
    rcases (fileOutcome_loaded_iff _ f n).mp hout with ⟨-, hw, rows, hp, -⟩
    have hwf : writeOf (tableNames ([] : Store)) (tableName f.name) f =
        some rows := by
      unfold writeOf
      rw [if_pos ⟨rfl, List.not_mem_nil _, hw⟩, hp]
    rw [← getTable_isSome_iff, hst1, getTable_foldl]
    exact foldl_writeStep_exists_isSome _ _ _ ⟨f, hf, by rw [hwf]; rfl⟩ _
  have hnl2 : ∀ f ∈ files.filter isCandidate, ∀ n : Nat,
      fileOutcome (tableNames st1) f ≠ Outcome.loaded n := by
    intro f hf n hcon
    rcases (fileOutcome_loaded_iff _ f n).mp hcon with ⟨hnot2, hw, rows, hp, hl⟩
    exact hnot2 (hload f hf n ((fileOutcome_loaded_iff _ f n).mpr
      ⟨List.not_mem_nil _, hw, rows, hp, hl⟩))
  constructor
  · intro i n name h1
    rw [ingest_all_report, List.getElem?_map] at h1
    rw [ingest_all_report, List.getElem?_map]
    rcases Option.map_eq_some'.mp h1 with ⟨f, hfi, hfe⟩
    have hf : f ∈ files.filter isCandidate := List.getElem?_mem hfi
    simp only [Prod.mk.injEq] at hfe
    have hout2 : fileOutcome (tableNames st1) f = Outcome.skipped := by
      unfold fileOutcome
      rw [if_pos (hload f hf n hfe.2)]
    rw [hfi]
    simp [hout2, hfe.1]
  · rw [ingest_all_store]
    exact foldl_applyFile_id _ _
      (fun f hf => applyFile_eq_self_of_not_loaded _ f (hnl2 f hf)) st1

/-- Witness for ingest_twice_idempotent: with one good and one malformed
    file, the first run loads orders.csv, the second run skips it, and the
    store is unchanged by the second run. -/
theorem ingest_twice_idempotent_witness :
    (ingest_all true
        [⟨"orders.csv", some [["1"]], true⟩, ⟨"bad.csv", none, true⟩]
        []).report[0]? = some ("orders.csv", Outcome.loaded 1) ∧
    (ingest_all true
        [⟨"orders.csv", some [["1"]], true⟩, ⟨"bad.csv", none, true⟩]
        (ingest_all true
          [⟨"orders.csv", some [["1"]], true⟩, ⟨"bad.csv", none, true⟩]
          []).store).report[0]? = some ("orders.csv", Outcome.skipped) ∧
    (ingest_all true
        [⟨"orders.csv", some [["1"]], true⟩, ⟨"bad.csv", none, true⟩]
        (ingest_all true
          [⟨"orders.csv", some [["1"]], true⟩, ⟨"bad.csv", none, true⟩]
          []).store).store =
      (ingest_all true
        [⟨"orders.csv", some [["1"]], true⟩, ⟨"bad.csv", none, true⟩]
        []).store :=
  ⟨by decide,
   (ingest_twice_idempotent
      [⟨"orders.csv", some [["1"]], true⟩, ⟨"bad.csv", none, true⟩]).1
      0 1 "orders.csv" (by decide),
   (ingest_twice_idempotent
      [⟨"orders.csv", some [["1"]], true⟩, ⟨"bad.csv", none, true⟩]).2⟩

/-- C7 counterexample: the filename a.csvb.csv passes the case-sensitive
    candidate filter, but the code's derivation removes every occurrence of
    the substring ".csv" (Python str.replace) before lower-casing, giving
    "ab", while stripping the extension and lower-casing gives "a.csvb";
    moreover the mixed-case Orders.CSV named by the claim is not even
    accepted by the filter. -/
theorem name_derivation_counterexample :
    isCandidate ⟨"a.csvb.csv", none, true⟩ = true ∧
    tableName "a.csvb.csv" = "ab" ∧
    specTableName "a.csvb.csv" = "a.csvb" ∧
    tableName "a.csvb.csv" ≠ specTableName "a.csvb.csv" ∧
    isCandidate ⟨"Orders.CSV", none, true⟩ = false := by decide

/-- C7 amended: the candidate filter accepts exactly the filenames ending
    in ".csv" case-sensitively, and for every filename in which ".csv"
    occurs only as the trailing extension the derived table name equals the
    spec's extension-stripped, lower-cased identifier; in general the code
    removes every occurrence of ".csv" before lower-casing. -/
theorem name_derivation_amended (s : String) (t : List Char)
    (hs : s.data = t ++ ".csv".data)
    (hclean : noEarlyOccur ".csv".data s.data = true) :
    pyEndsWith s ".csv" = true ∧
    (∀ (p : Option (List Row)) (w : Bool), isCandidate ⟨s, p, w⟩ = true) ∧
    tableName s = specTableName s := by
  have hrev : s.data.reverse = ".csv".data.reverse ++ t.reverse := by
    rw [hs, List.reverse_append]
  have hend : pyEndsWith s ".csv" = true := by
    unfold pyEndsWith
    rw [hrev, dropPrefix?_append]
    rfl
  refine ⟨hend, fun p w => hend, ?_⟩
  have h1 : pyReplace s ".csv" "" = ⟨t⟩ := by
    unfold pyReplace
    congr 1
    rw [show ("" : String).data = [] from rfl, hs]
    exact replaceAllAux_strip ".csv".data (by decide) t (t ++ ".csv".data).length
      (hs ▸ hclean) (Nat.le_refl _)
  have h2 : stripSuffix s ".csv" = ⟨t⟩ := by
    unfold stripSuffix
    rw [hrev, dropPrefix?_append]
    simp only [List.reverse_reverse]
  unfold tableName specTableName
  rw [h1, h2]

/-- Witness for name_derivation_amended: for the well-behaved filename
    orders.csv the code's derived name and the spec's rule agree. -/
theorem name_derivation_amended_witness :
    pyEndsWith "orders.csv" ".csv" = true ∧
    (∀ (p : Option (List Row)) (w : Bool),
      isCandidate ⟨"orders.csv", p, w⟩ = true) ∧
    tableName "orders.csv" = specTableName "orders.csv" :=
  name_derivation_amended "orders.csv" ['o', 'r', 'd', 'e', 'r', 's']
    (by decide) (by decide)

